import Mathlib

/-!
Shallow embedding of the offer deduplication, prioritization and delivery-ledger
core of `fetchShopeeOffers.js` (the repository contains three near-identical
variants of the file; line numbers below refer to the concatenated source).
Modelling conventions:
  javascript strings are `String`; absent or undefined fields are `none`;
  javascript numbers are `ℚ` (exact arithmetic — every number the embedded code
  produces on the inputs of interest is a finite double, so `Number.isFinite`
  is the `some` case of the parser); the nondeterministic Fisher-Yates shuffle
  of the first variant is a function parameter assumed to preserve membership;
  the sha256 digest used by `normalizeOfferKey` is an abstract function
  parameter `hash`, since no property below depends on the digest value.
-/

namespace TelegramOfertas

/-- Javascript truthiness of a string-or-undefined value: truthy exactly when it
is a non-empty string. -/
def jsTruthy : Option String → Bool
  | none => false
  | some s => !(s == "")

/-- Javascript template interpolation of a string-or-undefined value
(`undefined` prints as "undefined"). -/
def strOfJs : Option String → String
  | none => "undefined"
  | some s => s

/-- Javascript `v || d` for a string-or-undefined `v` and a string default `d`. -/
def jsOrStr (v : Option String) (d : String) : String :=
  if jsTruthy v then strOfJs v else d

/-- Model of javascript `toLowerCase` (ASCII case folding, which covers every
keyword the code compares). -/
def lowerStr (s : String) : String := String.mk (s.toList.map Char.toLower)

/-- Model of javascript `trim`: drop whitespace from both ends. -/
def trimStr (s : String) : String :=
  String.mk (((s.toList.dropWhile Char.isWhitespace).reverse.dropWhile
    Char.isWhitespace).reverse)

/-- `leadsWith n h` is true when the char list `n` is an initial segment of `h`. -/
def leadsWith : List Char → List Char → Bool
  | [], _ => true
  | _ :: _, [] => false
  | a :: as, b :: bs => a == b && leadsWith as bs

/-- Substring search on char lists, the model of javascript `includes`. -/
def hasSub (needle : List Char) : List Char → Bool
  | [] => leadsWith needle []
  | c :: t => leadsWith needle (c :: t) || hasSub needle t

/-- Javascript `hay.includes(needle)`. -/
def containsSub (needle hay : String) : Bool := hasSub needle.toList hay.toList

/-- Fuel-driven body of the whitespace-run collapse; the fuel is the list length,
which always suffices because every step consumes at least one character. -/
def collapseWsAux : ℕ → List Char → List Char
  | 0, _ => []
  | _ + 1, [] => []
  | n + 1, c :: t =>
    if c.isWhitespace then ' ' :: collapseWsAux n (t.dropWhile Char.isWhitespace)
    else c :: collapseWsAux n t

/-- Javascript `s.replace(/\s+/g, " ")`: collapse every whitespace run to one space. -/
def collapseWsStr (s : String) : String :=
  String.mk (collapseWsAux s.toList.length s.toList)

/-- Split a char list at the first dot: the part before it and, when a dot is
present, the part after it. -/
def splitOnDot : List Char → List Char × Option (List Char)
  | [] => ([], none)
  | c :: t =>
    if c == '.' then ([], some t)
    else
      let r := splitOnDot t
      (c :: r.1, r.2)

def allDigits (cs : List Char) : Bool := cs.all Char.isDigit

/-- Numeric value of a digit string. -/
def natVal (cs : List Char) : ℕ := cs.foldl (fun a c => 10 * a + (c.toNat - 48)) 0

/-- Body of `Number(s)` after the optional leading minus sign was consumed:
any remaining minus or comma, a second dot, or a digitless body is NaN (`none`);
otherwise the decimal value. -/
def jsNumBody (sgn : ℚ) (body : List Char) : Option ℚ :=
  if body.contains '-' || body.contains ',' then none
  else
    match splitOnDot body with
    | (a, none) => if a ≠ [] ∧ allDigits a then some (sgn * natVal a) else none
    | (a, some b) =>
      if b.contains '.' then none
      else if (a ≠ [] ∨ b ≠ []) ∧ allDigits a ∧ allDigits b then
        some (sgn * ((natVal a : ℚ) + (natVal b : ℚ) / (10 : ℚ) ^ b.length))
      else none

/-- Javascript `Number()` restricted to the character set surviving the price
cleaning regexes (digits, dot, comma, minus).  `Number("")` is `0`. -/
def jsNumberChars (cs : List Char) : Option ℚ :=
  match cs with
  | [] => some 0
  | c :: t => if c == '-' then jsNumBody (-1) t else jsNumBody 1 (c :: t)

/-- Javascript `s.replace(",", ".")`: only the first comma is replaced. -/
def replaceFirstComma : List Char → List Char
  | [] => []
  | c :: t => if c == ',' then '.' :: t else c :: replaceFirstComma t

/-- `parsePrice` of the first and third variants (lines 177-181 and 1023-1027):
strip every character except digits, dots and commas, turn the first comma into
a dot, then `Number`; NaN gives null. -/
def parsePrice : Option String → Option ℚ
  | none => none
  | some s =>
    jsNumberChars (replaceFirstComma
      (s.toList.filter fun c => c.isDigit || c == '.' || c == ','))

/-- `parsePrice` of the second variant (lines 497-507): same pipeline but the
cleaning regex also keeps the minus sign. -/
def parsePriceB : Option String → Option ℚ
  | none => none
  | some s =>
    jsNumberChars (replaceFirstComma
      (s.toList.filter fun c => c.isDigit || c == ',' || c == '.' || c == '-'))

/-- Chars before the first `?` or `#`. -/
def stripQFChars (cs : List Char) : List Char :=
  cs.takeWhile fun c => !(c == '?') && !(c == '#')

def isSchemeChar (c : Char) : Bool :=
  c.isAlpha || c.isDigit || c == '+' || c == '-' || c == '.'

structure URLParts where
  scheme : String
  host : String
  pathname : String
deriving DecidableEq

/-- Model of `new URL(u)` for the pieces the code reads (scheme, host, pathname).
A parse succeeds on `scheme://host[/path]` with an alphabetic scheme head and a
non-empty host; scheme and host are lower-cased as the URL standard requires,
and the pathname of a URL without a path is "/". -/
def parseURL (cs : List Char) : Option URLParts :=
  match cs with
  | [] => none
  | c :: _ =>
    if c.isAlpha then
      let scheme := cs.takeWhile isSchemeChar
      match cs.drop scheme.length with
      | ':' :: '/' :: '/' :: r =>
        let host := r.takeWhile fun x => !(x == '/') && !(x == '?') && !(x == '#')
        if host.isEmpty then none
        else
          let path := (r.drop host.length).takeWhile fun x => !(x == '?') && !(x == '#')
          some { scheme := String.mk (scheme.map Char.toLower),
                 host := String.mk (host.map Char.toLower),
                 pathname := if path.isEmpty then "/" else String.mk path }
      | _ => none
    else none

/-- `normalizeUrlNoQuery` of the first variant (lines 76-90).  `new URL(u)` is
modelled by `parseURL`; origin and pathname never depend on the query or the
fragment, so the parse reads the query/fragment-stripped prefix — which is also
exactly what the manual fallback of the catch branch returns. -/
def normalizeUrlNoQuery : Option String → Option String
  | none => none
  | some s =>
    if s == "" then none
    else
      let core := stripQFChars s.toList
      match parseURL core with
      | some p => some (p.scheme ++ "://" ++ p.host ++ p.pathname)
      | none => some (String.mk core)

/-- The normalized form of a URL string, with "" for the null cases. -/
def normQF (s : String) : String := (normalizeUrlNoQuery (some s)).getD ""

structure Offer where
  productName : Option String := none
  imageUrl : Option String := none
  offerLink : Option String := none
  priceMin : Option String := none
  priceMax : Option String := none
  shopId : Option String := none
  videoUrl : Option String := none
  couponLink : Option String := none
  coupon_url : Option String := none
  coupon : Option String := none
  couponCode : Option String := none
deriving DecidableEq

/-- The `offer.field ? normalizeUrlNoQuery(offer.field) : null` step of
`makeUniqueKey`. -/
def urlKeyPart (v : Option String) : Option String :=
  if jsTruthy v then normalizeUrlNoQuery v else none

/-- `makeUniqueKey` of the first variant (lines 93-103): image key, else link
key, else name-plus-shop key; each URL candidate is used only when its
normalized form is truthy. -/
def makeUniqueKey (o : Offer) : String :=
  if jsTruthy (urlKeyPart o.imageUrl) then "img::" ++ strOfJs (urlKeyPart o.imageUrl)
  else if jsTruthy (urlKeyPart o.offerLink) then "link::" ++ strOfJs (urlKeyPart o.offerLink)
  else
    "name::" ++ collapseWsStr (trimStr (jsOrStr o.productName "")) ++ "::" ++
      jsOrStr o.shopId ""

/-- The inline dedupe key of the second and third variants (lines 573, 597, 637,
1014, 1046, 1086):
the template `${off.offerLink || off.imageUrl || off.productName}::${off.shopId || ""}`,
which prefers the link over the image and applies no normalization. -/
def keyB (o : Offer) : String :=
  (if jsTruthy o.offerLink then strOfJs o.offerLink
   else if jsTruthy o.imageUrl then strOfJs o.imageUrl
   else strOfJs o.productName) ++ "::" ++ jsOrStr o.shopId ""

/-- The value of `offer.imageUrl && String(offer.imageUrl).trim()` read through
javascript truthiness: the trimmed image URL when truthy, else falsy (""). -/
def imgCandidate (o : Offer) : String :=
  if jsTruthy o.imageUrl then trimStr (strOfJs o.imageUrl) else ""

/-- The value of `offer.offerLink && String(offer.offerLink).trim()` read through
javascript truthiness. -/
def linkCandidate (o : Offer) : String :=
  if jsTruthy o.offerLink then trimStr (strOfJs o.offerLink) else ""

/-- The `rawCandidate` chain of `normalizeOfferKey` (lines 695-698):
`(imageUrl && trim) || (offerLink && trim) || name-shop template`. -/
def rawCandidateB (o : Offer) : String :=
  if imgCandidate o ≠ "" then imgCandidate o
  else if linkCandidate o ≠ "" then linkCandidate o
  else trimStr (jsOrStr o.productName "") ++ "::" ++ jsOrStr o.shopId ""

/-- Consume the literal `p` from the head of `cs`. -/
def dropLit : List Char → List Char → Option (List Char)
  | [], cs => some cs
  | _ :: _, [] => none
  | p :: ps, c :: cs => if c == p then dropLit ps cs else none

/-- One match of the regex `utm_[^&=]+=[^&]*` anchored at the head; returns the
remainder after the matched span. -/
def utmTail (cs : List Char) : Option (List Char) :=
  match dropLit ['u', 't', 'm', '_'] cs with
  | none => none
  | some r =>
    let nm := r.takeWhile fun c => !(c == '&') && !(c == '=')
    if nm.isEmpty then none
    else
      match r.drop nm.length with
      | '=' :: r2 => some (r2.drop ((r2.takeWhile fun c => !(c == '&')).length))
      | _ => none

/-- Fuel-driven global replacement of `utm_[^&=]+=[^&]*` by ""; the fuel is the
list length, which suffices because every step consumes at least one char. -/
def removeUtmAux : ℕ → List Char → List Char
  | 0, cs => cs
  | _ + 1, [] => []
  | n + 1, c :: t =>
    match utmTail (c :: t) with
    | some rest => removeUtmAux n rest
    | none => c :: removeUtmAux n t

/-- Fuel-driven collapse of ampersand runs to a single ampersand, the effect of
`replace(/(&){2,}/g, "&")`. -/
def collapseAmpsAux : ℕ → List Char → List Char
  | 0, cs => cs
  | _ + 1, [] => []
  | n + 1, c :: t =>
    if c == '&' then '&' :: collapseAmpsAux n (t.dropWhile fun x => x == '&')
    else c :: collapseAmpsAux n t

/-- `replace(/^&|&$/g, "")`: drop one leading and one trailing ampersand. -/
def ampEdge (cs : List Char) : List Char :=
  let c1 := match cs with
    | '&' :: t => t
    | l => l
  match c1.reverse with
  | '&' :: t => t.reverse
  | _ => c1

/-- `pathname.replace(/\/+$/, "")`. -/
def stripTrailingSlashes (s : String) : String :=
  String.mk ((s.toList.reverse.dropWhile fun c => c == '/').reverse)

/-- The cleaning pipeline of `normalizeOfferKey` (lines 702-718) up to the final
sha256: strip query and fragment, trim and lower-case, remove utm parameters and
stray ampersands, and for a parseable URL keep the pathname (or the hostname). -/
def cleanedCandidate (raw : String) : String :=
  let c1 := lowerStr (trimStr (String.mk (stripQFChars raw.toList)))
  let r1 := removeUtmAux c1.toList.length c1.toList
  let l2 := ampEdge (collapseAmpsAux r1.length r1)
  let c2 := String.mk l2
  match parseURL l2 with
  | some p =>
    let pth := stripTrailingSlashes p.pathname
    if pth ≠ "" then pth else if p.host ≠ "" then p.host else c2
  | none => c2

/-- `normalizeOfferKey` of the second variant (lines 693-722).  The sha256
digest is the abstract parameter `hash`; the outer catch branch is unreachable
because nothing in the pipeline throws. -/
def normalizeOfferKey (hash : String → String) (o : Offer) : Option String :=
  let raw := rawCandidateB o
  if raw == "" then none else some (hash (cleanedCandidate raw))

/-- `computeDiscountScore` (lines 183-190, 582-589, 1029-1036), generic in the
price parser because the second variant uses its own `parsePrice`.  The
javascript guard `max && min && max > min` reads both parsed prices through
truthiness, so a parsed value of 0 falls to the 0 branch. -/
def computeDiscountScoreWith (pp : Option String → Option ℚ) (o : Offer) : ℚ :=
  match pp o.priceMax, pp o.priceMin with
  | some mx, some mn => if mx ≠ 0 ∧ mn ≠ 0 ∧ mx > mn then (mx - mn) / mx * 100 else 0
  | _, _ => 0

def computeDiscountScore : Offer → ℚ := computeDiscountScoreWith parsePrice

def computeDiscountScoreB : Offer → ℚ := computeDiscountScoreWith parsePriceB

/-- `Boolean(off.couponLink || off.coupon_url || off.coupon || off.couponCode)`. -/
def hasCoupon (o : Offer) : Bool :=
  jsTruthy o.couponLink || jsTruthy o.coupon_url || jsTruthy o.coupon ||
    jsTruthy o.couponCode

/-- `isBlackFridayOffer` (lines 192-195, 590-593, 1038-1041): the lower-cased
name contains "black" (the second disjunct "black friday" is subsumed). -/
def isBlackFridayOffer (o : Offer) : Bool :=
  let nm := lowerStr (jsOrStr o.productName "")
  containsSub "black" nm || containsSub "black friday" nm

inductive Tier
  | campaign
  | coupon
  | discounted
  | plain
deriving DecidableEq

def tierRank : Tier → ℕ
  | .campaign => 0
  | .coupon => 1
  | .discounted => 2
  | .plain => 3

/-- Branch order of the partition loop inside `prioritizeOffers` (first match
wins): Black Friday name, else coupon, else positive discount, else rest. -/
def classifyWith (pp : Option String → Option ℚ) (o : Offer) : Tier :=
  if isBlackFridayOffer o then .campaign
  else if hasCoupon o then .coupon
  else if computeDiscountScoreWith pp o > 0 then .discounted
  else .plain

def classify : Offer → Tier := classifyWith parsePrice

def classifyB : Offer → Tier := classifyWith parsePriceB

/-- First-seen-wins dedupe by key: the model of both the insertion-ordered Map
pass and the final seen-Set pass of `prioritizeOffers`. -/
def dedupeBy (k : Offer → String) : List Offer → List String → List Offer
  | [], _ => []
  | o :: t, seen =>
    if k o ∈ seen then dedupeBy k t seen else o :: dedupeBy k t (k o :: seen)

/-- In-tier sort, descending by discount score (the comparator
`(a, b) => b.discountScore - a.discountScore`). -/
def sortDescByScoreWith (pp : Option String → Option ℚ) (l : List Offer) : List Offer :=
  l.insertionSort fun a b => computeDiscountScoreWith pp b ≤ computeDiscountScoreWith pp a

/-- Shared body of `prioritizeOffers` across the variants (lines 206-264,
594-644, 1043-1093): dedupe by `k`, partition by tier, sort the first three
tiers by score, shuffle inside each tier (the identity in the unshuffled
variants), concatenate in tier order, dedupe again. -/
def prioritizeCore (pp : Option String → Option ℚ) (k : Offer → String)
    (shuffle : List Offer → List Offer) (offers : List Offer) : List Offer :=
  let uniq := dedupeBy k offers []
  let bf := uniq.filter fun o => decide (classifyWith pp o = Tier.campaign)
  let cp := uniq.filter fun o => decide (classifyWith pp o = Tier.coupon)
  let wd := uniq.filter fun o => decide (classifyWith pp o = Tier.discounted)
  let rest := uniq.filter fun o => decide (classifyWith pp o = Tier.plain)
  let ordered :=
    shuffle (sortDescByScoreWith pp bf) ++ shuffle (sortDescByScoreWith pp cp) ++
      shuffle (sortDescByScoreWith pp wd) ++ shuffle rest
  dedupeBy k ordered []

/-- `prioritizeOffers` of the first variant (lines 206-264): keys via
`makeUniqueKey`, and a Fisher-Yates shuffle inside each tier, modelled as a
function parameter. -/
def prioritizeOffers (shuffle : List Offer → List Offer) : List Offer → List Offer :=
  prioritizeCore parsePrice makeUniqueKey shuffle

/-- `prioritizeOffers` of the second and third variants (lines 594-644 and
1043-1093): inline link-first keys and no shuffle. -/
def prioritizeOffersB : List Offer → List Offer :=
  prioritizeCore parsePriceB keyB id

/-- The persisted `sentOffersMap` of the second variant: key to last delivered
price (which may itself be null). -/
abbrev SentMap := List (String × Option ℚ)

def mapGet : SentMap → String → Option (Option ℚ)
  | [], _ => none
  | (k, v) :: t, q => if k == q then some v else mapGet t q

def mapSet : SentMap → String → Option ℚ → SentMap
  | [], q, v => [(q, v)]
  | (k, w) :: t, q, v => if k == q then (q, v) :: t else (k, w) :: mapSet t q v

/-- Eligibility check of `pushOffersToTelegram` in the second variant (lines
748-764): an offer is skipped only when its key resolves, the ledger holds a
non-null last price, the current minimum parses, and the two are equal; an
offer without a key is skipped (`false` here means it is not sent). -/
def shouldDeliver (hash : String → String) (m : SentMap) (o : Offer) : Bool :=
  match normalizeOfferKey hash o with
  | none => false
  | some k =>
    match mapGet m k with
    | some (some lp) =>
      match parsePriceB o.priceMin with
      | some p => !(lp == p)
      | none => true
    | _ => true

/-- Ledger update after a successful send (lines 781-783): store the current
parsed minimum price (possibly null) under the offer key. -/
def recordDelivered (hash : String → String) (m : SentMap) (o : Offer) : SentMap :=
  match normalizeOfferKey hash o with
  | none => m
  | some k => mapSet m k (parsePriceB o.priceMin)

/-! ### Concrete offers used in the scenario checks -/

/-- Campaign-tier offer of the spec scenario. -/
def bfSofa : Offer := { productName := some "Black Friday Sofa" }

/-- Coupon-tier offer with a 10 percent discount. -/
def couponTen : Offer :=
  { productName := some "Gadget", couponLink := some "https://c.example.com/cp",
    priceMax := some "100", priceMin := some "90" }

/-- Plain offer with an 80 percent discount (Discounted tier). -/
def plainEighty : Offer :=
  { productName := some "Chair", priceMax := some "100", priceMin := some "20" }

def scenarioOffers : List Offer := [plainEighty, couponTen, bfSofa]

/-- Offer carrying both an image and a link. -/
def imgLinkOffer : Offer :=
  { productName := some "Sofa", imageUrl := some "https://img.example.com/photo.png",
    offerLink := some "https://shop.example.com/item", shopId := some "7" }

/-- Name containing "black" without the phrase "black friday". -/
def blackoutCurtain : Offer := { productName := some "Blackout Curtain" }

def utmA : Offer := { imageUrl := some "https://cdn.example.com/img/1.png" }

def utmB : Offer :=
  { imageUrl := some "https://cdn.example.com/img/1.png?utm_source=x" }

/-- Image field that strips to the empty string. -/
def degQueryImg : Offer :=
  { imageUrl := some "?utm_source=x", offerLink := some "https://a.shop.example/1" }

/-- Another image field that strips to the empty string, with a different link. -/
def degHashImg : Offer :=
  { imageUrl := some "#", offerLink := some "https://b.shop.example/2" }

/-- Offer with every field absent. -/
def blankOffer : Offer := {}

/-- Offer with only a shop id. -/
def blankShopOffer : Offer := { shopId := some "99" }

/-- Offer whose minimum price does not parse (`Number(".")` is NaN). -/
def dotPriceOffer : Offer :=
  { imageUrl := some "https://a.example.com/p.png", priceMin := some "." }

/-- Offer with a parseable minimum price. -/
def tenPriceOffer : Offer :=
  { imageUrl := some "https://a.example.com/p.png", priceMin := some "10" }

def halfOffOffer : Offer := { priceMax := some "100", priceMin := some "50" }

def zeroMinOffer : Offer := { priceMax := some "100", priceMin := some "0" }

/-! ### Structural lemmas about the dedupe pass -/

theorem mem_of_mem_dedupeBy {k : Offer → String} :
    ∀ {l : List Offer} {seen : List String} {x : Offer},
      x ∈ dedupeBy k l seen → x ∈ l := by
  intro l
  induction l with
  | nil => intro seen x h; simp [dedupeBy] at h
  | cons o t ih =>
    intro seen x h
    rw [dedupeBy] at h
    split at h
    · exact List.mem_cons_of_mem _ (ih h)
    · rcases List.mem_cons.mp h with h | h
      · subst h; exact List.mem_cons_self _ _
      · exact List.mem_cons_of_mem _ (ih h)

theorem dedupeBy_sublist (k : Offer → String) :
    ∀ (l : List Offer) (seen : List String), (dedupeBy k l seen).Sublist l := by
  intro l
  induction l with
  | nil => intro seen; simp [dedupeBy]
  | cons o t ih =>
    intro seen
    rw [dedupeBy]
    split
    · exact (ih seen).cons o
    · exact (ih (k o :: seen)).cons₂ o

theorem dedupeBy_spec (k : Offer → String) :
    ∀ (l : List Offer) (seen : List String),
      (∀ x ∈ dedupeBy k l seen, k x ∉ seen) ∧
        (dedupeBy k l seen).Pairwise fun a b => k a ≠ k b := by
  intro l
  induction l with
  | nil => intro seen; simp [dedupeBy]
  | cons o t ih =>
    intro seen
    rw [dedupeBy]
    split
    · exact ih seen
    · rename_i hko
      constructor
      · intro x hx
        rcases List.mem_cons.mp hx with h | h
        · subst h; exact hko
        · intro hmem
          exact ((ih (k o :: seen)).1 x h) (List.mem_cons_of_mem _ hmem)
      · refine List.Pairwise.cons (fun b hb heq => ?_) (ih (k o :: seen)).2
        exact ((ih (k o :: seen)).1 b hb) (heq ▸ List.mem_cons_self _ _)

/-! ### Generic pairwise and sublist helpers -/

theorem pairwise_rank_const {l : List Offer} {f : Offer → ℕ} {n : ℕ}
    (h : ∀ a ∈ l, f a = n) : l.Pairwise fun a b => f a ≤ f b := by
  induction l with
  | nil => exact List.Pairwise.nil
  | cons a t ih =>
    refine List.Pairwise.cons (fun b hb => ?_)
      (ih fun b hb => h b (List.mem_cons_of_mem _ hb))
    rw [h a (List.mem_cons_self a t), h b (List.mem_cons_of_mem _ hb)]

theorem pair_sublist_of_pairwise {α : Type} {R : α → α → Prop} :
    ∀ {l : List α} {x y : α}, l.Pairwise R → x ∈ l → y ∈ l → x ≠ y → ¬ R y x →
      [x, y].Sublist l := by
  intro l
  induction l with
  | nil => intro x y _ hx; exact absurd hx (List.not_mem_nil x)
  | cons a t ih =>
    intro x y hp hx hy hxy hR
    have ha := List.pairwise_cons.mp hp
    rcases List.mem_cons.mp hx with hxa | hxt
    · subst hxa
      have hyt : y ∈ t := by
        rcases List.mem_cons.mp hy with h | h
        · exact absurd h.symm hxy
        · exact h
      exact (List.singleton_sublist.mpr hyt).cons₂ x
    · rcases List.mem_cons.mp hy with hya | hyt
      · subst hya
        exact absurd (ha.1 x hxt) hR
      · exact (ih ha.2 hxt hyt hxy hR).cons a

theorem length_filter_le_one_of_pairwise {k : Offer → String} {l : List Offer}
    (h : l.Pairwise fun a b => k a ≠ k b) (c : String) :
    (l.filter fun o => k o == c).length ≤ 1 := by
  induction l with
  | nil => simp
  | cons a t ih =>
    have ha := List.pairwise_cons.mp h
    by_cases hk : (k a == c) = true
    · have hc : k a = c := by simpa using hk
      have hnil : (t.filter fun o => k o == c) = [] := by
        refine List.filter_eq_nil_iff.mpr fun b hb => ?_
        simpa [hc] using (ha.1 b hb).symm
      simp [List.filter_cons, hk, hnil]
    · simpa [List.filter_cons, hk] using ih ha.2
/-! ### Lemmas about the shared prioritization body -/

theorem core_pairwise_key (pp : Option String → Option ℚ) (k : Offer → String)
    (shuffle : List Offer → List Offer) (offers : List Offer) :
    (prioritizeCore pp k shuffle offers).Pairwise fun a b => k a ≠ k b :=
  (dedupeBy_spec k _ _).2

theorem mem_sortDesc {pp : Option String → Option ℚ} {l : List Offer} {x : Offer}
    (h : x ∈ sortDescByScoreWith pp l) : x ∈ l :=
  (List.perm_insertionSort _ l).mem_iff.mp h

theorem core_subset (pp : Option String → Option ℚ) (k : Offer → String)
    (shuffle : List Offer → List Offer)
    (hsh : ∀ l x, x ∈ shuffle l → x ∈ l) (offers : List Offer) :
    ∀ x ∈ prioritizeCore pp k shuffle offers, x ∈ offers := by
  intro x hx
  have hx2 := mem_of_mem_dedupeBy hx
  have huniq : ∀ {t : Tier},
      x ∈ (dedupeBy k offers []).filter (fun o => decide (classifyWith pp o = t)) →
        x ∈ offers := by
    intro t ht
    exact mem_of_mem_dedupeBy (List.mem_filter.mp ht).1
  rcases List.mem_append.mp hx2 with h3 | h4
  · rcases List.mem_append.mp h3 with h1 | h2
    · rcases List.mem_append.mp h1 with ha | hb
      · exact huniq (mem_sortDesc (hsh _ _ ha))
      · exact huniq (mem_sortDesc (hsh _ _ hb))
    · exact huniq (mem_sortDesc (hsh _ _ h2))
  · exact huniq (hsh _ _ h4)

theorem chunk_classified {pp : Option String → Option ℚ} {k : Offer → String}
    {shuffle : List Offer → List Offer}
    (hsh : ∀ l x, x ∈ shuffle l → x ∈ l) {offers : List Offer} {t : Tier}
    {x : Offer}
    (hx : x ∈ shuffle (sortDescByScoreWith pp
      ((dedupeBy k offers []).filter fun o => decide (classifyWith pp o = t)))) :
    classifyWith pp x = t := by
  have := (List.mem_filter.mp (mem_sortDesc (hsh _ _ hx))).2
  exact of_decide_eq_true this

theorem core_tier_pairwise (pp : Option String → Option ℚ) (k : Offer → String)
    (shuffle : List Offer → List Offer)
    (hsh : ∀ l x, x ∈ shuffle l → x ∈ l) (offers : List Offer) :
    (prioritizeCore pp k shuffle offers).Pairwise
      fun a b => tierRank (classifyWith pp a) ≤ tierRank (classifyWith pp b) := by
  have hrest : ∀ x ∈ shuffle ((dedupeBy k offers []).filter
      fun o => decide (classifyWith pp o = Tier.plain)), classifyWith pp x = Tier.plain := by
    intro x hx
    exact of_decide_eq_true (List.mem_filter.mp (hsh _ _ hx)).2
  refine List.Pairwise.sublist (dedupeBy_sublist k _ []) ?_
  refine List.pairwise_append.mpr ⟨?_, ?_, ?_⟩
  · refine List.pairwise_append.mpr ⟨?_, ?_, ?_⟩
    · refine List.pairwise_append.mpr ⟨?_, ?_, ?_⟩
      · exact pairwise_rank_const fun a ha => by rw [chunk_classified hsh ha]
      · exact pairwise_rank_const fun a ha => by rw [chunk_classified hsh ha]
      · intro a ha b hb
        rw [chunk_classified hsh ha, chunk_classified hsh hb]
        decide
    · exact pairwise_rank_const fun a ha => by rw [chunk_classified hsh ha]
    · intro a ha b hb
      rw [chunk_classified hsh hb]
      rcases List.mem_append.mp ha with h | h
      · rw [chunk_classified hsh h]; decide
      · rw [chunk_classified hsh h]; decide
  · exact pairwise_rank_const fun a ha => by rw [hrest a ha]
  · intro a ha b hb
    rw [hrest b hb]
    rcases List.mem_append.mp ha with h | h
    · rcases List.mem_append.mp h with h1 | h2
      · rw [chunk_classified hsh h1]; decide
      · rw [chunk_classified hsh h2]; decide
    · rw [chunk_classified hsh h]; decide

theorem core_precedes (pp : Option String → Option ℚ) (k : Offer → String)
    (shuffle : List Offer → List Offer)
    (hsh : ∀ l x, x ∈ shuffle l → x ∈ l) (offers : List Offer)
    {a b : Offer} (ha : a ∈ prioritizeCore pp k shuffle offers)
    (hb : b ∈ prioritizeCore pp k shuffle offers)
    (hlt : tierRank (classifyWith pp a) < tierRank (classifyWith pp b)) :
    [a, b].Sublist (prioritizeCore pp k shuffle offers) := by
  refine pair_sublist_of_pairwise (core_tier_pairwise pp k shuffle hsh offers) ha hb
    (fun he => ?_) (fun hle => ?_)
  · rw [he] at hlt; exact lt_irrefl _ hlt
  · exact absurd hlt (not_lt.mpr hle)

theorem prioritizeCore_singleton (pp : Option String → Option ℚ) (k : Offer → String)
    (o : Offer) : prioritizeCore pp k id [o] = [o] := by
  have h1 : dedupeBy k [o] [] = [o] := by simp [dedupeBy]
  rcases h : classifyWith pp o with _ | _ | _ | _ <;>
    simp [prioritizeCore, h1, h, List.filter_cons, sortDescByScoreWith,
      List.insertionSort, List.orderedInsert, dedupeBy]
/-! ### String utilities -/

theorem str_append_data (a b : String) : (a ++ b).data = a.data ++ b.data := by
  cases a; cases b; rfl

theorem append_mid_ne_empty (x y : String) : x ++ "::" ++ y ≠ "" := by
  intro h
  have hd := congrArg String.data h
  rw [str_append_data, str_append_data] at hd
  simp at hd

theorem url_join_ne_empty (p : URLParts) :
    p.scheme ++ "://" ++ p.host ++ p.pathname ≠ "" := by
  intro h
  have hd := congrArg String.data h
  rw [str_append_data, str_append_data, str_append_data] at hd
  simp at hd

theorem mk_ne_empty {cs : List Char} (h : cs ≠ []) : String.mk cs ≠ "" := by
  intro he
  have hd : cs = [] := congrArg String.data he
  exact h hd

theorem toList_ne_nil_of_strip {s : String} (h : stripQFChars s.toList ≠ []) :
    s ≠ "" := by
  intro he
  subst he
  exact h rfl

theorem jsTruthy_some_of_ne {s : String} (h : s ≠ "") :
    jsTruthy (some s) = true := by
  simp [jsTruthy, h]

theorem ne_empty_of_trim {s : String} (h : trimStr s ≠ "") : s ≠ "" := by
  intro he
  rw [he] at h
  exact h rfl

/-! ### The normalized URL and the key derivations -/

theorem normalizeUrlNoQuery_some {s : String} (hs : s ≠ "") :
    normalizeUrlNoQuery (some s) =
      some (match parseURL (stripQFChars s.toList) with
        | some p => p.scheme ++ "://" ++ p.host ++ p.pathname
        | none => String.mk (stripQFChars s.toList)) := by
  rw [normalizeUrlNoQuery]
  simp only [beq_iff_eq, if_neg hs]
  rcases hp : parseURL (stripQFChars s.toList) with _ | p <;> simp [hp]

theorem normQF_ne_empty {s : String} (h : stripQFChars s.toList ≠ []) :
    normQF s ≠ "" := by
  rw [normQF, normalizeUrlNoQuery_some (toList_ne_nil_of_strip h)]
  rcases hp : parseURL (stripQFChars s.toList) with _ | p
  · simpa [hp] using mk_ne_empty h
  · simpa [hp] using url_join_ne_empty p

theorem normQF_congr {a b : String}
    (heq : stripQFChars a.toList = stripQFChars b.toList)
    (hne : stripQFChars a.toList ≠ []) : normQF a = normQF b := by
  rw [normQF, normQF, normalizeUrlNoQuery_some (toList_ne_nil_of_strip hne),
    normalizeUrlNoQuery_some (toList_ne_nil_of_strip (heq ▸ hne)), heq]

theorem urlKeyPart_of_strip {s : String} (h : stripQFChars s.toList ≠ []) :
    urlKeyPart (some s) = some (normQF s) := by
  have hs : s ≠ "" := toList_ne_nil_of_strip h
  rw [urlKeyPart, if_pos (jsTruthy_some_of_ne hs), normQF,
    normalizeUrlNoQuery_some hs]
  rfl

theorem makeUniqueKey_img {o : Offer} {s : String} (h : o.imageUrl = some s)
    (hs : stripQFChars s.toList ≠ []) :
    makeUniqueKey o = "img::" ++ normQF s := by
  have hk : urlKeyPart o.imageUrl = some (normQF s) := by
    rw [h]; exact urlKeyPart_of_strip hs
  have htr : jsTruthy (urlKeyPart o.imageUrl) = true := by
    rw [hk]; exact jsTruthy_some_of_ne (normQF_ne_empty hs)
  rw [makeUniqueKey, if_pos htr, hk]
  rfl

theorem makeUniqueKey_link {o : Offer} {t : String}
    (himg : jsTruthy (urlKeyPart o.imageUrl) = false)
    (h : o.offerLink = some t) (ht : stripQFChars t.toList ≠ []) :
    makeUniqueKey o = "link::" ++ normQF t := by
  have hk : urlKeyPart o.offerLink = some (normQF t) := by
    rw [h]; exact urlKeyPart_of_strip ht
  have htr : jsTruthy (urlKeyPart o.offerLink) = true := by
    rw [hk]; exact jsTruthy_some_of_ne (normQF_ne_empty ht)
  rw [makeUniqueKey, if_neg (by simp [himg]), if_pos htr, hk]
  rfl

theorem makeUniqueKey_name {o : Offer}
    (himg : jsTruthy (urlKeyPart o.imageUrl) = false)
    (hlink : jsTruthy (urlKeyPart o.offerLink) = false) :
    makeUniqueKey o =
      "name::" ++ collapseWsStr (trimStr (jsOrStr o.productName "")) ++ "::" ++
        jsOrStr o.shopId "" := by
  rw [makeUniqueKey, if_neg (by simp [himg]), if_neg (by simp [hlink])]

theorem keyB_link {o : Offer} {t : String} (h : o.offerLink = some t)
    (ht : t ≠ "") : keyB o = t ++ "::" ++ jsOrStr o.shopId "" := by
  rw [keyB, h, if_pos (jsTruthy_some_of_ne ht)]
  rfl

/-! ### normalizeOfferKey structure -/

theorem rawCandidateB_ne_empty (o : Offer) : rawCandidateB o ≠ "" := by
  rw [rawCandidateB]
  split
  · assumption
  · split
    · assumption
    · exact append_mid_ne_empty _ _

theorem normalizeOfferKey_isSome (hash : String → String) (o : Offer) :
    (normalizeOfferKey hash o).isSome = true := by
  rw [normalizeOfferKey]
  simp only [beq_iff_eq, if_neg (rawCandidateB_ne_empty o), Option.isSome_some]

theorem normalizeOfferKey_eq (hash : String → String) (o : Offer) :
    normalizeOfferKey hash o = some (hash (cleanedCandidate (rawCandidateB o))) := by
  rw [normalizeOfferKey]
  simp only [beq_iff_eq, if_neg (rawCandidateB_ne_empty o)]

theorem imgCandidate_some {o : Offer} {s : String} (h : o.imageUrl = some s)
    (hs : trimStr s ≠ "") : imgCandidate o = trimStr s := by
  rw [imgCandidate, h, if_pos (jsTruthy_some_of_ne (ne_empty_of_trim hs))]
  rfl

theorem linkCandidate_some {o : Offer} {t : String} (h : o.offerLink = some t)
    (ht : trimStr t ≠ "") : linkCandidate o = trimStr t := by
  rw [linkCandidate, h, if_pos (jsTruthy_some_of_ne (ne_empty_of_trim ht))]
  rfl

theorem rawCandidateB_img {o : Offer} {s : String} (h : o.imageUrl = some s)
    (hs : trimStr s ≠ "") : rawCandidateB o = trimStr s := by
  rw [rawCandidateB, imgCandidate_some h hs, if_pos hs]

theorem rawCandidateB_link {o : Offer} {t : String}
    (himg : imgCandidate o = "") (h : o.offerLink = some t)
    (ht : trimStr t ≠ "") : rawCandidateB o = trimStr t := by
  rw [rawCandidateB, himg, linkCandidate_some h ht, if_neg (by simp), if_pos ht]

theorem rawCandidateB_name {o : Offer}
    (himg : imgCandidate o = "") (hlink : linkCandidate o = "") :
    rawCandidateB o =
      trimStr (jsOrStr o.productName "") ++ "::" ++ jsOrStr o.shopId "" := by
  rw [rawCandidateB, himg, hlink, if_neg (by simp), if_neg (by simp)]

/-! ### Ledger map lemmas -/

theorem mapGet_mapSet_self (m : SentMap) (q : String) (v : Option ℚ) :
    mapGet (mapSet m q v) q = some v := by
  induction m with
  | nil => simp [mapSet, mapGet]
  | cons p t ih =>
    obtain ⟨k, w⟩ := p
    rw [mapSet]
    split
    · simp [mapGet]
    · rw [mapGet]
      rename_i hk
      rw [if_neg hk]
      exact ih
/-! ### Price parsing lemmas -/

theorem contains_true_of_mem {l : List Char} {c : Char} (h : c ∈ l) :
    l.contains c = true := by
  simp [List.contains, List.elem_iff, h]

theorem contains_false_of_not_mem {l : List Char} {c : Char} (h : c ∉ l) :
    l.contains c = false := by
  simp [List.contains, List.elem_iff, h]

theorem mem_replaceFirstComma {cs : List Char} {c : Char}
    (h : c ∈ replaceFirstComma cs) : c ∈ cs ∨ c = '.' := by
  induction cs with
  | nil => simp [replaceFirstComma] at h
  | cons x t ih =>
    rw [replaceFirstComma] at h
    split at h
    · rcases List.mem_cons.mp h with h | h
      · exact Or.inr h
      · exact Or.inl (List.mem_cons_of_mem _ h)
    · rcases List.mem_cons.mp h with h | h
      · exact Or.inl (h ▸ List.mem_cons_self _ _)
      · rcases ih h with h | h
        · exact Or.inl (List.mem_cons_of_mem _ h)
        · exact Or.inr h

theorem replaceFirstComma_ne_nil {cs : List Char} (h : cs ≠ []) :
    replaceFirstComma cs ≠ [] := by
  cases cs with
  | nil => exact absurd rfl h
  | cons x t =>
    rw [replaceFirstComma]
    split <;> simp

/-- `Number` of a non-empty string made only of dots and commas is NaN. -/
theorem jsNumberChars_dotcomma {l : List Char} (hne : l ≠ [])
    (hall : ∀ c ∈ l, c = '.' ∨ c = ',') : jsNumberChars l = none := by
  cases l with
  | nil => exact absurd rfl hne
  | cons c t =>
    have hc := hall c (List.mem_cons_self _ _)
    have hcm : (c == '-') = false := by
      rcases hc with h | h <;> simp [h]
    rw [jsNumberChars, hcm]
    simp only [Bool.false_eq_true, if_false]
    by_cases hcomma : ',' ∈ c :: t
    · rw [jsNumBody, if_pos (by rw [contains_true_of_mem hcomma]; simp)]
    · have hdots : ∀ x ∈ c :: t, x = '.' := by
        intro x hx
        rcases hall x hx with h | h
        · exact h
        · exact absurd (h ▸ hx) hcomma
      have hcd : c = '.' := hdots c (List.mem_cons_self _ _)
      have hnomin : ('-' : Char) ∉ c :: t := by
        intro hmem
        exact absurd (hdots _ hmem) (by decide)
      rw [jsNumBody, if_neg (by rw [contains_false_of_not_mem hnomin,
        contains_false_of_not_mem hcomma]; simp)]
      have hsplit : splitOnDot (c :: t) = ([], some t) := by
        rw [splitOnDot]
        simp [hcd]
      rw [hsplit]
      cases t with
      | nil => simp
      | cons d t2 =>
        have hd : d = '.' := hdots d (by simp)
        have hdmem : '.' ∈ d :: t2 := by
          rw [hd]
          exact List.mem_cons_self _ _
        simp [contains_true_of_mem hdmem]
        intro h1
        exact absurd hd.symm h1
/-! ### Small reduction helpers -/

theorem jsOrStr_of_falsy {v : Option String} {d : String}
    (h : jsTruthy v = false) : jsOrStr v d = d := by
  simp [jsOrStr, h]

theorem urlKeyPart_of_falsy {v : Option String} (h : jsTruthy v = false) :
    urlKeyPart v = none := by
  simp [urlKeyPart, h]

theorem shouldDeliver_eq (hash : String → String) (m : SentMap) (o : Offer)
    {kk : String} (hk : normalizeOfferKey hash o = some kk) :
    shouldDeliver hash m o =
      match mapGet m kk with
      | some (some lp) =>
        match parsePriceB o.priceMin with
        | some p => !(lp == p)
        | none => true
      | _ => true := by
  rw [shouldDeliver, hk]

/-! ### Claims -/

/-- C1 (confirmed): for every offer list, the output of `prioritizeOffers`
contains no two elements with an equal identity key (in the first variant the
key is `makeUniqueKey`, in the second the inline `keyB`), and every element of
the output is an element of the input — the function never invents data.  The
shuffle is any membership-preserving function. -/
theorem c1_prioritize_unique_and_subset (offers : List Offer)
    (shuffle : List Offer → List Offer)
    (hsh : ∀ l x, x ∈ shuffle l → x ∈ l) :
    ((prioritizeOffers shuffle offers).Pairwise
      fun a b => makeUniqueKey a ≠ makeUniqueKey b) ∧
    (∀ o ∈ prioritizeOffers shuffle offers, o ∈ offers) ∧
    ((prioritizeOffersB offers).Pairwise fun a b => keyB a ≠ keyB b) ∧
    (∀ o ∈ prioritizeOffersB offers, o ∈ offers) :=
  ⟨core_pairwise_key parsePrice makeUniqueKey shuffle offers,
   core_subset parsePrice makeUniqueKey shuffle hsh offers,
   core_pairwise_key parsePriceB keyB id offers,
   core_subset parsePriceB keyB id (fun _ _ h => h) offers⟩

/-- C1 witness: the identity shuffle preserves membership, and each scenario
offer surviving in the output indeed came from the input. -/
theorem c1_witness : bfSofa ∈ scenarioOffers ∧ plainEighty ∈ scenarioOffers :=
  ⟨(c1_prioritize_unique_and_subset scenarioOffers id (fun _ _ h => h)).2.1 bfSofa
    (of_decide_eq_true (by with_unfolding_all rfl)),
   (c1_prioritize_unique_and_subset scenarioOffers id (fun _ _ h => h)).2.1 plainEighty
    (of_decide_eq_true (by with_unfolding_all rfl))⟩

/-- C2 (confirmed): in the output of `prioritizeOffers` (both variants) the
tier rank never decreases along the list — every Campaign offer precedes every
Coupon offer, every Coupon offer precedes every Discounted offer, and every
Discounted offer precedes every Plain offer, regardless of discount scores;
moreover any member of a strictly earlier tier occurs before any member of a
later tier. -/
theorem c2_tier_precedence (offers : List Offer)
    (shuffle : List Offer → List Offer)
    (hsh : ∀ l x, x ∈ shuffle l → x ∈ l) :
    ((prioritizeOffers shuffle offers).Pairwise
      fun a b => tierRank (classify a) ≤ tierRank (classify b)) ∧
    (∀ a b, a ∈ prioritizeOffers shuffle offers →
      b ∈ prioritizeOffers shuffle offers →
      tierRank (classify a) < tierRank (classify b) →
      [a, b].Sublist (prioritizeOffers shuffle offers)) ∧
    ((prioritizeOffersB offers).Pairwise
      fun a b => tierRank (classifyB a) ≤ tierRank (classifyB b)) ∧
    (∀ a b, a ∈ prioritizeOffersB offers → b ∈ prioritizeOffersB offers →
      tierRank (classifyB a) < tierRank (classifyB b) →
      [a, b].Sublist (prioritizeOffersB offers)) :=
  ⟨core_tier_pairwise parsePrice makeUniqueKey shuffle hsh offers,
   fun _ _ ha hb hlt =>
     core_precedes parsePrice makeUniqueKey shuffle hsh offers ha hb hlt,
   core_tier_pairwise parsePriceB keyB id (fun _ _ h => h) offers,
   fun _ _ ha hb hlt =>
     core_precedes parsePriceB keyB id (fun _ _ h => h) offers ha hb hlt⟩

/-- C2 witness: the spec scenario.  Fed the Campaign offer, the Coupon offer
with 10 percent discount and the plain offer with 80 percent discount, the
Campaign one precedes the Coupon one, which precedes the 80-percent one. -/
theorem c2_witness :
    [bfSofa, couponTen].Sublist (prioritizeOffers id scenarioOffers) ∧
    [couponTen, plainEighty].Sublist (prioritizeOffers id scenarioOffers) :=
  ⟨(c2_tier_precedence scenarioOffers id (fun _ _ h => h)).2.1 bfSofa couponTen
    (of_decide_eq_true (by with_unfolding_all rfl))
    (of_decide_eq_true (by with_unfolding_all rfl))
    (of_decide_eq_true (by with_unfolding_all rfl)),
   (c2_tier_precedence scenarioOffers id (fun _ _ h => h)).2.1 couponTen plainEighty
    (of_decide_eq_true (by with_unfolding_all rfl))
    (of_decide_eq_true (by with_unfolding_all rfl))
    (of_decide_eq_true (by with_unfolding_all rfl))⟩

/-- C10 (confirmed): any offer whose name contains the substring "black"
case-insensitively — not only the phrase "black friday" — is classified in the
Campaign tier, and in the prioritized output it precedes every non-Campaign
offer that carries a coupon or a positive discount. -/
theorem c10_black_substring_campaign (o : Offer)
    (h : containsSub "black" (lowerStr (jsOrStr o.productName "")) = true) :
    isBlackFridayOffer o = true ∧ classify o = Tier.campaign ∧
    ∀ offers shuffle, (∀ l x, x ∈ shuffle l → x ∈ l) → ∀ b,
      o ∈ prioritizeOffers shuffle offers →
      b ∈ prioritizeOffers shuffle offers →
      isBlackFridayOffer b = false →
      (hasCoupon b = true ∨ 0 < computeDiscountScore b) →
      [o, b].Sublist (prioritizeOffers shuffle offers) := by
  have hbf : isBlackFridayOffer o = true := by
    rw [isBlackFridayOffer]
    simp [h]
  have hcl : classify o = Tier.campaign := by
    show classifyWith parsePrice o = Tier.campaign
    rw [classifyWith, if_pos hbf]
  refine ⟨hbf, hcl, ?_⟩
  intro offers shuffle hsh b ho hb hbfb _
  have hne : classify b ≠ Tier.campaign := by
    intro he
    rw [show classify b = classifyWith parsePrice b from rfl, classifyWith,
      if_neg (by simp [hbfb])] at he
    split at he
    · cases he
    · split at he
      · cases he
      · cases he
  have hrank : 0 < tierRank (classify b) := by
    cases hcb : classify b
    · exact absurd hcb hne
    all_goals simp [tierRank]
  refine core_precedes parsePrice makeUniqueKey shuffle hsh offers ho hb ?_
  show tierRank (classify o) < tierRank (classify b)
  rw [hcl]
  exact hrank

/-- C10 witness: "Blackout Curtain" contains "black" but not "black friday";
it lands in the Campaign tier and precedes a coupon-bearing offer. -/
theorem c10_witness :
    isBlackFridayOffer blackoutCurtain = true ∧
    classify blackoutCurtain = Tier.campaign ∧
    [blackoutCurtain, couponTen].Sublist
      (prioritizeOffers id [couponTen, blackoutCurtain]) := by
  have h := c10_black_substring_campaign blackoutCurtain
    (of_decide_eq_true (by with_unfolding_all rfl))
  exact ⟨h.1, h.2.1,
    h.2.2 [couponTen, blackoutCurtain] id (fun _ _ hh => hh) couponTen
      (of_decide_eq_true (by with_unfolding_all rfl))
      (of_decide_eq_true (by with_unfolding_all rfl))
      (of_decide_eq_true (by with_unfolding_all rfl))
      (Or.inl (of_decide_eq_true (by with_unfolding_all rfl)))⟩
/-- C3 counterexample: the claim says the identity key is derived image-first
for every offer, but the inline dedupe key of the second and third variants
(`keyB`, the key actually used by their `prioritizeOffers` and
`fetchOffersAllPages`) is built from the raw link even though an image is
present, with no normalization at all — it disagrees with the image-first
`makeUniqueKey` on the same offer. -/
theorem c3_counterexample :
    makeUniqueKey imgLinkOffer = "img::https://img.example.com/photo.png" ∧
    keyB imgLinkOffer = "https://shop.example.com/item::7" ∧
    keyB imgLinkOffer ≠ "img::https://img.example.com/photo.png" ∧
    containsSub "img.example.com" (keyB imgLinkOffer) = false :=
  of_decide_eq_true (by with_unfolding_all rfl)

/-- C3 (corrected): `makeUniqueKey` and `normalizeOfferKey` do derive the key
in image-link-name priority order (whenever the image and link candidates are
usable in the sense each function tests), but the inline key of the second and
third variants prefers the link over the image. -/
theorem c3_amended (o : Offer) (hash : String → String) :
    (∀ s, o.imageUrl = some s → stripQFChars s.toList ≠ [] →
      makeUniqueKey o = "img::" ++ normQF s) ∧
    (jsTruthy (urlKeyPart o.imageUrl) = false → ∀ t, o.offerLink = some t →
      stripQFChars t.toList ≠ [] → makeUniqueKey o = "link::" ++ normQF t) ∧
    (jsTruthy (urlKeyPart o.imageUrl) = false →
      jsTruthy (urlKeyPart o.offerLink) = false →
      makeUniqueKey o = "name::" ++
        collapseWsStr (trimStr (jsOrStr o.productName "")) ++ "::" ++
        jsOrStr o.shopId "") ∧
    (∀ s, o.imageUrl = some s → trimStr s ≠ "" →
      normalizeOfferKey hash o = some (hash (cleanedCandidate (trimStr s)))) ∧
    (imgCandidate o = "" → ∀ t, o.offerLink = some t → trimStr t ≠ "" →
      normalizeOfferKey hash o = some (hash (cleanedCandidate (trimStr t)))) ∧
    (imgCandidate o = "" → linkCandidate o = "" →
      normalizeOfferKey hash o = some (hash (cleanedCandidate
        (trimStr (jsOrStr o.productName "") ++ "::" ++ jsOrStr o.shopId "")))) ∧
    (∀ t, o.offerLink = some t → t ≠ "" →
      keyB o = t ++ "::" ++ jsOrStr o.shopId "") :=
  ⟨fun _ h hs => makeUniqueKey_img h hs,
   fun himg _ h ht => makeUniqueKey_link himg h ht,
   fun himg hlink => makeUniqueKey_name himg hlink,
   fun _ h hs => by rw [normalizeOfferKey_eq, rawCandidateB_img h hs],
   fun himg _ h ht => by rw [normalizeOfferKey_eq, rawCandidateB_link himg h ht],
   fun himg hlink => by rw [normalizeOfferKey_eq, rawCandidateB_name himg hlink],
   fun _ h ht => keyB_link h ht⟩

/-- C3 witness: on an offer with both image and link, `makeUniqueKey` uses the
image, and the plain-language normalized form is the URL itself. -/
theorem c3_witness :
    makeUniqueKey imgLinkOffer =
      "img::" ++ normQF "https://img.example.com/photo.png" ∧
    normQF "https://img.example.com/photo.png" =
      "https://img.example.com/photo.png" :=
  ⟨(c3_amended imgLinkOffer id).1 "https://img.example.com/photo.png" rfl
    (of_decide_eq_true (by with_unfolding_all rfl)),
   of_decide_eq_true (by with_unfolding_all rfl)⟩

/-- C7 counterexample: two image URLs that are identical after stripping the
query string and fragment — because both strip to the empty string — do not
collapse: the empty normalized image is falsy, `makeUniqueKey` falls through to
the two different links, and both offers survive `prioritizeOffers`. -/
theorem c7_counterexample :
    stripQFChars ("?utm_source=x".toList) = stripQFChars ("#".toList) ∧
    makeUniqueKey degQueryImg ≠ makeUniqueKey degHashImg ∧
    prioritizeOffers id [degQueryImg, degHashImg] = [degQueryImg, degHashImg] :=
  of_decide_eq_true (by with_unfolding_all rfl)

/-- C7 (corrected): when two offers' image URLs agree after stripping the query
string and fragment and the stripped form is non-empty, the derived keys are
equal, and consequently at most one offer with that key survives in the output
of `prioritizeOffers`. -/
theorem c7_amended (A B : Offer) (a b : String)
    (ha : A.imageUrl = some a) (hb : B.imageUrl = some b)
    (heq : stripQFChars a.toList = stripQFChars b.toList)
    (hne : stripQFChars a.toList ≠ []) :
    makeUniqueKey A = makeUniqueKey B ∧
    ∀ shuffle : List Offer → List Offer, (∀ l x, x ∈ shuffle l → x ∈ l) →
      ∀ L : List Offer,
        ((prioritizeOffers shuffle L).filter
          fun o => makeUniqueKey o == makeUniqueKey A).length ≤ 1 := by
  constructor
  · rw [makeUniqueKey_img ha hne, makeUniqueKey_img hb (heq ▸ hne),
      normQF_congr heq hne]
  · intro shuffle _ L
    exact length_filter_le_one_of_pairwise
      (core_pairwise_key parsePrice makeUniqueKey shuffle L) _

/-- C7 witness: the utm scenario — the same image URL with and without a
`?utm_source=x` query parameter collapses to one key. -/
theorem c7_witness : makeUniqueKey utmA = makeUniqueKey utmB :=
  (c7_amended utmA utmB "https://cdn.example.com/img/1.png"
    "https://cdn.example.com/img/1.png?utm_source=x" rfl rfl
    (of_decide_eq_true (by with_unfolding_all rfl))
    (of_decide_eq_true (by with_unfolding_all rfl))).1

/-- C8 counterexample: an offer with no name, link or image is NOT dropped:
`makeUniqueKey` gives it the degenerate key "name::::", it appears in the
output of `prioritizeOffers`, `normalizeOfferKey` still produces a key (the
hash of "::"), and the delivery loop would send it. -/
theorem c8_counterexample :
    makeUniqueKey blankOffer = "name::::" ∧
    prioritizeOffers id [blankOffer] = [blankOffer] ∧
    normalizeOfferKey id blankOffer = some "::" ∧
    shouldDeliver id [] blankOffer = true :=
  of_decide_eq_true (by with_unfolding_all rfl)

/-- C8 (corrected): an offer with no non-empty name, link or image candidate is
never discarded — `normalizeOfferKey` always returns a key, so the null-key
guard in `pushOffersToTelegram` is unreachable; `makeUniqueKey` gives such an
offer the degenerate name key, and it survives `prioritizeOffers`. -/
theorem c8_amended (hash : String → String) (o : Offer)
    (hname : jsTruthy o.productName = false)
    (hlink : jsTruthy o.offerLink = false)
    (himg : jsTruthy o.imageUrl = false) :
    (normalizeOfferKey hash o).isSome = true ∧
    makeUniqueKey o = "name::::" ++ jsOrStr o.shopId "" ∧
    prioritizeOffers id [o] = [o] := by
  refine ⟨normalizeOfferKey_isSome hash o, ?_,
    prioritizeCore_singleton parsePrice makeUniqueKey o⟩
  rw [makeUniqueKey_name (by rw [urlKeyPart_of_falsy himg]; rfl)
    (by rw [urlKeyPart_of_falsy hlink]; rfl)]
  have hpn : jsOrStr o.productName "" = "" := jsOrStr_of_falsy hname
  rw [hpn, show collapseWsStr (trimStr "") = "" from rfl]
  congr 1

/-- C8 witness: an offer with only a shop id gets the degenerate key and
survives, and its `normalizeOfferKey` is still defined. -/
theorem c8_witness :
    (normalizeOfferKey id blankShopOffer).isSome = true ∧
    makeUniqueKey blankShopOffer = "name::::" ++ jsOrStr blankShopOffer.shopId "" ∧
    prioritizeOffers id [blankShopOffer] = [blankShopOffer] :=
  c8_amended id blankShopOffer rfl rfl rfl
/-- C4 counterexample: an offer whose minimum price does not parse breaks the
round trip — after recording it, the same offer with the same (null) parsed
price is still eligible, because suppression needs a non-null price on both
sides. -/
theorem c4_counterexample :
    parsePriceB dotPriceOffer.priceMin = none ∧
    shouldDeliver id (recordDelivered id [] dotPriceOffer) dotPriceOffer = true :=
  of_decide_eq_true (by with_unfolding_all rfl)

/-- C4 (corrected): after `recordDelivered`, an offer with the same key and the
same parsed minimum price is suppressed provided that price is a number; a
different parsed price is always delivered again; and when the recorded price
was null the offer stays eligible regardless. -/
theorem c4_amended (hash : String → String) (m : SentMap) (o q : Offer)
    (kk : String) (hk : normalizeOfferKey hash o = some kk)
    (hq : normalizeOfferKey hash q = some kk) :
    (∀ p, parsePriceB o.priceMin = some p → parsePriceB q.priceMin = some p →
      shouldDeliver hash (recordDelivered hash m o) q = false) ∧
    (parsePriceB q.priceMin ≠ parsePriceB o.priceMin →
      shouldDeliver hash (recordDelivered hash m o) q = true) ∧
    (parsePriceB o.priceMin = none →
      shouldDeliver hash (recordDelivered hash m o) q = true) := by
  have hrec : recordDelivered hash m o = mapSet m kk (parsePriceB o.priceMin) := by
    rw [recordDelivered, hk]
  refine ⟨?_, ?_, ?_⟩
  · intro p hp hqp
    rw [shouldDeliver_eq hash _ q hq, hrec, hp, mapGet_mapSet_self, hqp]
    simp
  · intro hne
    rw [shouldDeliver_eq hash _ q hq, hrec, mapGet_mapSet_self]
    rcases ho : parsePriceB o.priceMin with _ | p
    · rfl
    · rcases hqp : parsePriceB q.priceMin with _ | r
      · rfl
      · have hrp : ¬ p = r := by
          intro he
          rw [ho, hqp, he.symm] at hne
          exact hne rfl
        simp [hrp]
  · intro ho
    rw [shouldDeliver_eq hash _ q hq, hrec, ho, mapGet_mapSet_self]

/-- C4 witness: the round trip at a parseable price — recording the offer at
price 10 suppresses redelivery of the same offer. -/
theorem c4_witness :
    shouldDeliver id (recordDelivered id [] tenPriceOffer) tenPriceOffer = false :=
  (c4_amended id [] tenPriceOffer tenPriceOffer "/p.png"
    (of_decide_eq_true (by with_unfolding_all rfl))
    (of_decide_eq_true (by with_unfolding_all rfl))).1 10
    (of_decide_eq_true (by with_unfolding_all rfl))
    (of_decide_eq_true (by with_unfolding_all rfl))

/-- C9 (confirmed): an offer whose minimum price does not parse is never
suppressed by the ledger — before and immediately after its identity is
recorded, `shouldDeliver` still answers true for every ledger state. -/
theorem c9_unparseable_price_always_eligible (hash : String → String)
    (m : SentMap) (o : Offer) (h : parsePriceB o.priceMin = none) :
    shouldDeliver hash m o = true ∧
    shouldDeliver hash (recordDelivered hash m o) o = true := by
  obtain ⟨kk, hk⟩ := Option.isSome_iff_exists.mp (normalizeOfferKey_isSome hash o)
  constructor
  · rw [shouldDeliver_eq hash m o hk]
    rcases mapGet m kk with _ | v
    · rfl
    · rcases v with _ | lp
      · rfl
      · rw [h]
  · rw [shouldDeliver_eq hash _ o hk, recordDelivered, hk, h, mapGet_mapSet_self]

/-- C9 witness: the unparseable-price offer stays eligible before and after
being recorded. -/
theorem c9_witness :
    shouldDeliver id [] dotPriceOffer = true ∧
    shouldDeliver id (recordDelivered id [] dotPriceOffer) dotPriceOffer = true :=
  c9_unparseable_price_always_eligible id [] dotPriceOffer
    (of_decide_eq_true (by with_unfolding_all rfl))

/-- C5 counterexample: "abc" contains no digits, yet `parsePrice` returns 0,
not null — the cleaning regex leaves the empty string and `Number("")` is 0. -/
theorem c5_counterexample :
    parsePrice (some "abc") = some 0 ∧ parsePrice (some "abc") ≠ none :=
  of_decide_eq_true (by with_unfolding_all rfl)

/-- C5 (corrected): `parsePrice` is total (never throws) and returns a number
or null; but on a digit-free input it returns null only when the cleaned form
is non-empty (made of dots and commas): when cleaning removes every character,
`Number("")` gives 0 instead of null. -/
theorem c5_amended (s : String) (hnd : ∀ c ∈ s.toList, c.isDigit = false) :
    (parsePrice (some s) = some 0 ∨ parsePrice (some s) = none) ∧
    ((s.toList.filter fun c => c.isDigit || c == '.' || c == ',') = [] →
      parsePrice (some s) = some 0) ∧
    ((s.toList.filter fun c => c.isDigit || c == '.' || c == ',') ≠ [] →
      parsePrice (some s) = none) ∧
    parsePrice none = none := by
  have hall : ∀ c ∈ s.toList.filter fun c => c.isDigit || c == '.' || c == ',',
      c = '.' ∨ c = ',' := by
    intro c hc
    have h1 := List.mem_filter.mp hc
    have h2 := hnd c h1.1
    simpa [h2] using h1.2
  have hnone : (s.toList.filter fun c => c.isDigit || c == '.' || c == ',') ≠ [] →
      parsePrice (some s) = none := by
    intro hne
    show jsNumberChars (replaceFirstComma
      (s.toList.filter fun c => c.isDigit || c == '.' || c == ',')) = none
    apply jsNumberChars_dotcomma (replaceFirstComma_ne_nil hne)
    intro c hc
    rcases mem_replaceFirstComma hc with h | h
    · exact hall c h
    · exact Or.inl h
  have hzero : (s.toList.filter fun c => c.isDigit || c == '.' || c == ',') = [] →
      parsePrice (some s) = some 0 := by
    intro he
    show jsNumberChars (replaceFirstComma
      (s.toList.filter fun c => c.isDigit || c == '.' || c == ',')) = some 0
    rw [he]
    rfl
  refine ⟨?_, hzero, hnone, rfl⟩
  by_cases he : (s.toList.filter fun c => c.isDigit || c == '.' || c == ',') = []
  · exact Or.inl (hzero he)
  · exact Or.inr (hnone he)

/-- C5 witness: "R$" cleans to the empty string and yields 0, while "." cleans
to a lone dot and yields null. -/
theorem c5_witness :
    parsePrice (some "R$") = some 0 ∧ parsePrice (some ".") = none :=
  ⟨(c5_amended "R$" (of_decide_eq_true (by with_unfolding_all rfl))).2.1
    (of_decide_eq_true (by with_unfolding_all rfl)),
   (c5_amended "." (of_decide_eq_true (by with_unfolding_all rfl))).2.2.1
    (of_decide_eq_true (by with_unfolding_all rfl))⟩

/-- C6 counterexample: with priceMax 100 and priceMin 0 both prices parse and
max exceeds min, yet the score is 0, not the formula value 100 — the truthiness
guard drops the case min = 0, which the claim explicitly includes. -/
theorem c6_counterexample :
    parsePrice zeroMinOffer.priceMax = some 100 ∧
    parsePrice zeroMinOffer.priceMin = some 0 ∧
    computeDiscountScore zeroMinOffer = 0 ∧
    ((100 : ℚ) - 0) / 100 * 100 = 100 ∧ (0 : ℚ) ≠ 100 :=
  of_decide_eq_true (by with_unfolding_all rfl)

/-- C6 (corrected): the discount score equals (max − min)/max × 100 when both
prices parse, both are non-zero, and max > min; it is 0 when min parses to 0,
when max parses to 0, when max is missing or unparseable, and when max ≤ min.
Stated for both price parsers through the shared body. -/
theorem c6_amended (pp : Option String → Option ℚ) (o : Offer) :
    (∀ mx mn, pp o.priceMax = some mx → pp o.priceMin = some mn → mx ≠ 0 →
      mn ≠ 0 → mn < mx →
      computeDiscountScoreWith pp o = (mx - mn) / mx * 100) ∧
    (∀ mn, pp o.priceMin = some mn → mn = 0 →
      computeDiscountScoreWith pp o = 0) ∧
    (∀ mx, pp o.priceMax = some mx → mx = 0 →
      computeDiscountScoreWith pp o = 0) ∧
    (pp o.priceMax = none → computeDiscountScoreWith pp o = 0) ∧
    (∀ mx mn, pp o.priceMax = some mx → pp o.priceMin = some mn → mx ≤ mn →
      computeDiscountScoreWith pp o = 0) := by
  refine ⟨?_, ?_, ?_, ?_, ?_⟩
  · intro mx mn hmx hmn h0x h0n hlt
    simp only [computeDiscountScoreWith, hmx, hmn]
    rw [if_pos ⟨h0x, h0n, hlt⟩]
  · intro mn hmn h0
    rcases hmx : pp o.priceMax with _ | mx
    · simp [computeDiscountScoreWith, hmx]
    · simp only [computeDiscountScoreWith, hmx, hmn]
      rw [if_neg]
      intro hcond
      exact hcond.2.1 h0
  · intro mx hmx h0
    rcases hmn : pp o.priceMin with _ | mn
    · simp [computeDiscountScoreWith, hmx, hmn]
    · simp only [computeDiscountScoreWith, hmx, hmn]
      rw [if_neg]
      intro hcond
      exact hcond.1 h0
  · intro hmx
    simp [computeDiscountScoreWith, hmx]
  · intro mx mn hmx hmn hle
    simp only [computeDiscountScoreWith, hmx, hmn]
    rw [if_neg]
    intro hcond
    exact absurd hcond.2.2 (not_lt.mpr hle)

/-- C6 witness: priceMax 100 with priceMin 50 gives exactly 50. -/
theorem c6_witness : computeDiscountScore halfOffOffer = 50 :=
  ((c6_amended parsePrice halfOffOffer).1 100 50
    (of_decide_eq_true (by with_unfolding_all rfl))
    (of_decide_eq_true (by with_unfolding_all rfl))
    (of_decide_eq_true (by with_unfolding_all rfl))
    (of_decide_eq_true (by with_unfolding_all rfl))
    (of_decide_eq_true (by with_unfolding_all rfl))).trans
    (of_decide_eq_true (by with_unfolding_all rfl))
end TelegramOfertas
